import Mathlib

/-!
Shallow embedding of the fno_dashboard market-data backend.

Numeric values of the TypeScript source (JS numbers) are modelled as
rationals; `toFixed(2)`-then-`parseFloat` is modelled as round-half-up to two
decimal places.  Each definition mirrors one function of the source:

* `apps/api/src/utils/optionsPricing.ts` : calculateTimeValue
* `apps/api/src/utils/optionChain.utils.ts` (second document of the
  optionsPricing source file): calculateVolumeColor, calculateOIColor,
  findHighestVolumes, findHighestOI
* `apps/api/src/cache/optionChainCache.ts` and the Redis variant
  (`redisCache.ts`): store / getPrevious
* the WebSocket service (`websocket.ts`): subscribe / unsubscribe /
  removeClient / broadcast / sendToClient
* the market-data poller (`marketDataPoller.ts`): startPolling /
  stopPolling / startIVPolling / stopIVPolling / fetchAndBroadcast timing
-/

namespace FnoDashboard

/-- Option side as written in the source: CE (call) or PE (put). -/
inductive OptionType where
  | CE
  | PE
deriving DecidableEq, Repr

/-- Model of JavaScript `parseFloat(x.toFixed(2))` for the nonnegative values
produced in this code base: round half up to two decimal places. -/
def round2 (x : ℚ) : ℚ := ((Int.floor (x * 100 + 1/2) : ℤ) : ℚ) / 100

/-- The `intrinsicValue` computed inside `calculateTimeValue`
(optionsPricing.ts lines 16-24): `max(0, S-K)` for CE, `max(0, K-S)` for
PE. -/
def intrinsicValue (spotPrice strikePrice : ℚ) : OptionType → ℚ
  | OptionType.CE => max 0 (spotPrice - strikePrice)
  | OptionType.PE => max 0 (strikePrice - spotPrice)

/-- `calculateTimeValue` from optionsPricing.ts lines 10-28: the result is
`max(0, premium - intrinsic)` rounded via `toFixed(2)`. -/
def calculateTimeValue (optionPremium spotPrice strikePrice : ℚ)
    (optionType : OptionType) : ℚ :=
  round2 (max 0 (optionPremium - intrinsicValue spotPrice strikePrice optionType))

/-- `calculateVolumeColor` from optionChain.utils.ts lines 362-380. -/
def calculateVolumeColor (volume previousVolume highestVolume : ℚ)
    (isCE : Bool) : String :=
  let isHighest := volume = highestVolume ∧ 0 < highestVolume
  let isRising := 0 < previousVolume ∧
    (volume - previousVolume) / previousVolume ≥ 7/10
  if isHighest then (if isCE then "#4caf50" else "#f44336")
  else if isRising then (if isCE then "#c8e6c9" else "#ffcdd2")
  else "transparent"

/-- Result record of `calculateOIColor`. -/
structure OIColorResult where
  color : String
  shouldFade : Bool
deriving DecidableEq, Repr

/-- `calculateOIColor` from optionChain.utils.ts lines 385-427: the
`previousOI === 0` guard is checked before any division. -/
def calculateOIColor (oi previousOI highestOI : ℚ) (isCE : Bool) :
    OIColorResult :=
  let isHighest := oi = highestOI ∧ 0 < highestOI
  if previousOI = 0 then
    if isHighest then ⟨if isCE then "#4caf50" else "#f44336", false⟩
    else ⟨"transparent", false⟩
  else
    let changePercent := (oi - previousOI) / previousOI
    if isHighest then ⟨if isCE then "#4caf50" else "#f44336", false⟩
    else if changePercent ≥ 3/5 then
      ⟨if isCE then "#c8e6c9" else "#f8bbd0", false⟩
    else if changePercent ≤ -(3/5) then ⟨"#ffeb3b", true⟩
    else ⟨"transparent", false⟩

/-- The per-strike raw data record (`StrikeData`, optionChain.utils.ts),
restricted to the fields the color pipeline reads. -/
structure StrikeData where
  strikePrice : ℚ
  ceOI : ℚ
  ceVolume : ℚ
  peOI : ℚ
  peVolume : ℚ
deriving DecidableEq, Repr

/-- Result of `findHighestVolumes` (optionChain.utils.ts lines 318-335). -/
structure HighestVolumes where
  highestCEVolume : ℚ
  highestPEVolume : ℚ
deriving DecidableEq, Repr

/-- `findHighestVolumes`: linear scan starting from 0, keeping the strictly
larger value. -/
def findHighestVolumes (strikes : List StrikeData) : HighestVolumes :=
  strikes.foldl
    (fun acc s =>
      ⟨if s.ceVolume > acc.highestCEVolume then s.ceVolume
        else acc.highestCEVolume,
       if s.peVolume > acc.highestPEVolume then s.peVolume
        else acc.highestPEVolume⟩)
    ⟨0, 0⟩

/-- Result of `findHighestOI` (optionChain.utils.ts lines 340-357). -/
structure HighestOI where
  highestCEOI : ℚ
  highestPEOI : ℚ
deriving DecidableEq, Repr

/-- `findHighestOI`: linear scan starting from 0. -/
def findHighestOI (strikes : List StrikeData) : HighestOI :=
  strikes.foldl
    (fun acc s =>
      ⟨if s.ceOI > acc.highestCEOI then s.ceOI else acc.highestCEOI,
       if s.peOI > acc.highestPEOI then s.peOI else acc.highestPEOI⟩)
    ⟨0, 0⟩

/-- The previous snapshot a tick reads from the cache: the poller stores
`{ strikes: filteredStrikes, timestamp }`, and the enrichment loop only reads
its `strikes` list. -/
structure PrevSnapshot where
  strikes : List StrikeData
deriving DecidableEq, Repr

/-- The color/fade fields of one enriched strike as assembled by
`fetchAndBroadcast` (marketDataPoller lines 1204-1239).  The pricing fields
(IV, Greeks, time value) are outside the scope of the color claims. -/
structure EnrichedColorView where
  strikePrice : ℚ
  ceVolumeColor : String
  peVolumeColor : String
  ceOIColor : String
  ceShouldFadeOI : Bool
  peOIColor : String
  peShouldFadeOI : Bool
deriving DecidableEq, Repr

/-- JavaScript `prev?.field || fallback` on numbers: `undefined` and `0` are
both falsy, so the fallback is used for a missing strike and for a zero
field. -/
def orFallback (x : Option ℚ) (fallback : ℚ) : ℚ :=
  match x with
  | none => fallback
  | some v => if v = 0 then fallback else v

/-- The color-computation portion of the enrichment loop of
`fetchAndBroadcast` (marketDataPoller lines 1140-1240): per strike, look up
the matching previous strike, default every previous value to the current
value when absent (or zero), and compute the four colors and two fade
flags. -/
def enrichColors (filteredStrikes : List StrikeData)
    (previousData : Option PrevSnapshot) : List EnrichedColorView :=
  let hv := findHighestVolumes filteredStrikes
  let ho := findHighestOI filteredStrikes
  filteredStrikes.map (fun strike =>
    let previousStrike := previousData.bind (fun p =>
      p.strikes.find? (fun s => s.strikePrice = strike.strikePrice))
    let previousCEVolume :=
      orFallback (previousStrike.map (fun s => s.ceVolume)) strike.ceVolume
    let previousPEVolume :=
      orFallback (previousStrike.map (fun s => s.peVolume)) strike.peVolume
    let previousCEOI :=
      orFallback (previousStrike.map (fun s => s.ceOI)) strike.ceOI
    let previousPEOI :=
      orFallback (previousStrike.map (fun s => s.peOI)) strike.peOI
    let ceVolumeColor := calculateVolumeColor strike.ceVolume previousCEVolume
      hv.highestCEVolume true
    let peVolumeColor := calculateVolumeColor strike.peVolume previousPEVolume
      hv.highestPEVolume false
    let ceOIResult := calculateOIColor strike.ceOI previousCEOI
      ho.highestCEOI true
    let peOIResult := calculateOIColor strike.peOI previousPEOI
      ho.highestPEOI false
    { strikePrice := strike.strikePrice
      ceVolumeColor := ceVolumeColor
      peVolumeColor := peVolumeColor
      ceOIColor := ceOIResult.color
      ceShouldFadeOI := ceOIResult.shouldFade
      peOIColor := peOIResult.color
      peShouldFadeOI := peOIResult.shouldFade })

/-! ## Snapshot cache (optionChainCache.ts and redisCache.ts) -/

/-- One cache entry: `{ timestamp, data }`. -/
structure CacheEntry (α : Type) where
  timestamp : Nat
  data : α
deriving DecidableEq, Repr

/-- `OptionChainCache.store` (optionChainCache.ts lines 25-42): push the new
entry; if the list now exceeds `MAX_ENTRIES = 3`, `shift()` drops the
oldest. -/
def cacheStore {α : Type} (entries : List (CacheEntry α)) (now : Nat)
    (d : α) : List (CacheEntry α) :=
  let pushed := entries ++ [⟨now, d⟩]
  if pushed.length > 3 then pushed.tail else pushed

/-- `RedisCache.store` (redisCache.ts lines 73-100): push the new entry and
keep `slice(-MAX_ENTRIES)`, the last 3 entries. -/
def redisStore {α : Type} (entries : List (CacheEntry α)) (now : Nat)
    (d : α) : List (CacheEntry α) :=
  let pushed := entries ++ [⟨now, d⟩]
  if pushed.length > 3 then pushed.drop (pushed.length - 3) else pushed

/-- `getPrevious` (optionChainCache.ts lines 47-57, redisCache.ts lines
105-125): the second-to-last entry's data, or null when fewer than 2
entries exist. -/
def cacheGetPrevious {α : Type} (entries : List (CacheEntry α)) : Option α :=
  if 2 ≤ entries.length then
    (entries.get? (entries.length - 2)).map (fun e => e.data)
  else none

/-- A whole history of `store` calls against one key, starting from the
empty list, as the poller produces over time. -/
def cacheRunStore {α : Type} (ops : List (Nat × α)) : List (CacheEntry α) :=
  ops.foldl (fun l p => cacheStore l p.1 p.2) []

/-! ## WebSocket broadcast (websocket.ts) -/

/-- A connected client handle: `isOpen` models `readyState ===
WebSocket.OPEN`, `sendFails` models whether `ws.send` throws. -/
structure WSClient where
  id : Nat
  isOpen : Bool
  sendFails : Bool
deriving DecidableEq, Repr

/-- Raw `ws.send`: throws for a broken socket. -/
def wsSendRaw (c : WSClient) : Except String Unit :=
  if c.sendFails then Except.error "send failed" else Except.ok ()

/-- `sendToClient` (websocket.ts lines 218-229): only sends when the socket
is open, and catches any exception of `ws.send`, returning false instead of
re-throwing. -/
def sendToClient (c : WSClient) : Bool :=
  if c.isOpen then
    match wsSendRaw c with
    | Except.ok _ => true
    | Except.error _ => false
  else false

/-- The ids a call to `broadcast` delivers to: the subscribers for which
`sendToClient` succeeded. -/
def broadcastDelivered (subscribers : List WSClient) : List Nat :=
  (subscribers.filter (fun c => sendToClient c)).map (fun c => c.id)

/-- The success counter kept by `broadcast` (websocket.ts lines 192-213). -/
def broadcastSuccessCount (subscribers : List WSClient) : Nat :=
  (broadcastDelivered subscribers).length

/-- The delivery loop of `broadcast`, with the exception channel explicit:
every step goes through `sendToClient`, whose catch keeps the loop total. -/
def broadcastAttempt :
    List WSClient → Nat × List Nat → Except String (Nat × List Nat)
  | [], acc => Except.ok acc
  | c :: rest, acc =>
      if sendToClient c then
        broadcastAttempt rest (acc.1 + 1, acc.2 ++ [c.id])
      else broadcastAttempt rest acc

/-- `broadcast` on the subscriber list of a channel. -/
def broadcastRun (subscribers : List WSClient) :
    Except String (Nat × List Nat) :=
  broadcastAttempt subscribers (0, [])

/-! ## WebSocket subscription registry (websocket.ts lines 103-187) -/

/-- JS `Set.add`: idempotent insertion at the end. -/
def setAdd {α : Type} [DecidableEq α] (l : List α) (x : α) : List α :=
  if x ∈ l then l else l ++ [x]

/-- The two indices of `WebSocketService`: `clients` maps a socket handle to
its subscription set, `channelSubscribers` maps a subscription key to the
set of subscribed handles.  Handles are modelled as naturals, sets as
duplicate-free lists. -/
structure WSState where
  clients : Nat → Option (List String)
  channelSubscribers : String → Option (List Nat)

/-- The registry right after server startup: no clients, no channels. -/
def wsInit : WSState := ⟨fun _ => none, fun _ => none⟩

/-- The connection handler (websocket.ts lines 36-43): register the new
socket with an empty subscription set. -/
def wsConnect (s : WSState) (ws : Nat) : WSState :=
  { clients := fun w => if w = ws then some [] else s.clients w
    channelSubscribers := s.channelSubscribers }

/-- `subscribe` (lines 103-130): unknown sockets are ignored; otherwise the
key is added to the client's set, the channel's set is created when absent,
and the socket is added to it. -/
def wsSubscribe (s : WSState) (ws : Nat) (key : String) : WSState :=
  match s.clients ws with
  | none => s
  | some subs =>
    { clients := fun w =>
        if w = ws then some (setAdd subs key) else s.clients w
      channelSubscribers := fun ch =>
        if ch = key then
          some (setAdd ((s.channelSubscribers key).getD []) ws)
        else s.channelSubscribers ch }

/-- Remove `ws` from the subscriber set of `key`, deleting the channel when
its set becomes empty (the shared cleanup step of `unsubscribe` and
`removeClient`). -/
def removeOne (l : Option (List Nat)) (ws : Nat) : Option (List Nat) :=
  match l with
  | none => none
  | some subscribers =>
      let l2 := subscribers.erase ws
      if l2 = [] then none else some l2

/-- `unsubscribe` (lines 135-165). -/
def wsUnsubscribe (s : WSState) (ws : Nat) (key : String) : WSState :=
  match s.clients ws with
  | none => s
  | some subs =>
    { clients := fun w =>
        if w = ws then some (subs.erase key) else s.clients w
      channelSubscribers := fun ch =>
        if ch = key then removeOne (s.channelSubscribers key) ws
        else s.channelSubscribers ch }

/-- One step of the `removeClient` cleanup loop: drop `ws` from the channel
named `key`. -/
def removeWsFromChannel (chans : String → Option (List Nat)) (key : String)
    (ws : Nat) : String → Option (List Nat) :=
  fun ch => if ch = key then removeOne (chans key) ws else chans ch

/-- `removeClient` (lines 170-187): remove the socket from every channel it
joined, then delete the client record. -/
def wsRemoveClient (s : WSState) (ws : Nat) : WSState :=
  match s.clients ws with
  | none => s
  | some subs =>
    { clients := fun w => if w = ws then none else s.clients w
      channelSubscribers :=
        subs.foldl (fun chans key => removeWsFromChannel chans key ws)
          s.channelSubscribers }

/-- The registry operations driven by socket events. -/
inductive WSOp where
  | connect (ws : Nat)
  | subscribe (ws : Nat) (key : String)
  | unsubscribe (ws : Nat) (key : String)
  | disconnect (ws : Nat)
deriving DecidableEq, Repr

/-- Dispatch one socket event. -/
def wsStep (s : WSState) : WSOp → WSState
  | WSOp.connect ws => wsConnect s ws
  | WSOp.subscribe ws key => wsSubscribe s ws key
  | WSOp.unsubscribe ws key => wsUnsubscribe s ws key
  | WSOp.disconnect ws => wsRemoveClient s ws

/-- Run a sequence of socket events. -/
def wsRun (s : WSState) : List WSOp → WSState
  | [] => s
  | op :: rest => wsRun (wsStep s op) rest

/-- Event sequences as the transport produces them: a `connection` event
always carries a fresh socket handle (a live handle is never handed out
twice). -/
def wsWF (s : WSState) : List WSOp → Bool
  | [] => true
  | op :: rest =>
      (match op with
       | WSOp.connect ws => (s.clients ws).isNone
       | _ => true)
      && wsWF (wsStep s op) rest

/-- Mutual consistency of the two indices, plus set well-formedness: every
stored list is duplicate-free, no channel maps to an empty set, and the
edge relation read off `clients` agrees with the one read off
`channelSubscribers`. -/
def WSInv (s : WSState) : Prop :=
  (∀ ws subs, s.clients ws = some subs → subs.Nodup) ∧
  (∀ ch l, s.channelSubscribers ch = some l → l.Nodup ∧ l ≠ []) ∧
  (∀ ws ch,
    (∃ subs, s.clients ws = some subs ∧ ch ∈ subs) ↔
    (∃ l, s.channelSubscribers ch = some l ∧ ws ∈ l))

/-! ## Market data poller (marketDataPoller, unnamed part 007) -/

/-- One installed `setInterval` timer: its id, the poller key whose config
the callback captured, and the channel the resulting fetch broadcasts to. -/
structure TimerRec where
  id : Nat
  key : String
  chan : String
deriving DecidableEq, Repr

/-- State of the `MarketDataPoller` singleton together with the observable
event log of its environment: `pollers` is the key-to-timer map, `activePolls`
the key set of the `activePolls` map, `timers` the intervals installed and
not yet cleared, `inflight` the channels of `fetchAndBroadcast` calls that
have started and not yet completed, and `published` the channels broadcast
so far, in order. -/
structure MDPState where
  pollers : List (String × Nat)
  activePolls : List String
  timers : List TimerRec
  inflight : List String
  published : List String
  nextId : Nat
deriving DecidableEq, Repr

/-- `Map.get` on an association list. -/
def alookup : List (String × Nat) → String → Option Nat
  | [], _ => none
  | (k, v) :: rest, key => if k = key then some v else alookup rest key

/-- `Map.set` on an association list: replace in place or append. -/
def aset : List (String × Nat) → String → Nat → List (String × Nat)
  | [], key, v => [(key, v)]
  | (k, w) :: rest, key, v =>
      if k = key then (key, v) :: rest else (k, w) :: aset rest key v

/-- `Map.delete` on an association list. -/
def aerase : List (String × Nat) → String → List (String × Nat)
  | [], _ => []
  | (k, v) :: rest, key =>
      if k = key then aerase rest key else (k, v) :: aerase rest key

/-- The poller key =`${symbol}:${expiry}`= of a chain poller. -/
def mkKey (symbol expiry : String) : String := symbol ++ ":" ++ expiry

/-- The channel a chain fetch broadcasts to.  The source additionally
uppercases the symbol; symbols are modelled as already upper-case, which is
how every caller of the poller supplies them. -/
def chainChan (symbol expiry : String) : String :=
  "option-chain:" ++ symbol ++ ":" ++ expiry

/-- The key =`iv:${symbol}`= used for an IV poller. -/
def mkIVKey (symbol : String) : String := "iv:" ++ symbol

/-- The channel an IV fetch broadcasts to; symbols modelled as already
upper-case, as for `chainChan`. -/
def ivChan (symbol : String) : String :=
  "ivdex:" ++ symbol

/-- `stopPolling` (lines 1069-1079): when a timer exists for the key, clear
it and delete both map entries; otherwise do nothing. -/
def mdpStopPolling (s : MDPState) (symbol expiry : String) : MDPState :=
  let key := mkKey symbol expiry
  match alookup s.pollers key with
  | none => s
  | some tid =>
    { s with
      timers := s.timers.filter (fun t => t.id ≠ tid)
      pollers := aerase s.pollers key
      activePolls := s.activePolls.erase key }

/-- `startPolling` (lines 1044-1064): stop any existing poller for the key,
record the config in `activePolls`, launch the initial `fetchAndBroadcast`,
and install the interval timer in `pollers`. -/
def mdpStartPolling (s : MDPState) (symbol expiry : String) : MDPState :=
  let key := mkKey symbol expiry
  let s1 := mdpStopPolling s symbol expiry
  { s1 with
    activePolls := setAdd s1.activePolls key
    inflight := s1.inflight ++ [chainChan symbol expiry]
    timers := ⟨s1.nextId, key, chainChan symbol expiry⟩ :: s1.timers
    pollers := aset s1.pollers key s1.nextId
    nextId := s1.nextId + 1 }

/-- `stopIVPolling` (lines 1331-1340): like `stopPolling` but keyed by
`iv:{symbol}`; it does not touch `activePolls`. -/
def mdpStopIVPolling (s : MDPState) (symbol : String) : MDPState :=
  let key := mkIVKey symbol
  match alookup s.pollers key with
  | none => s
  | some tid =>
    { s with
      timers := s.timers.filter (fun t => t.id ≠ tid)
      pollers := aerase s.pollers key }

/-- `startIVPolling` (lines 1309-1326): stop any existing IV poller, launch
the initial fetch, and install the interval timer; `activePolls` is not
updated. -/
def mdpStartIVPolling (s : MDPState) (symbol : String) : MDPState :=
  let key := mkIVKey symbol
  let s1 := mdpStopIVPolling s symbol
  { s1 with
    inflight := s1.inflight ++ [ivChan symbol]
    timers := ⟨s1.nextId, key, ivChan symbol⟩ :: s1.timers
    pollers := aset s1.pollers key s1.nextId
    nextId := s1.nextId + 1 }

/-- `stopAll` (lines 1421-1428). -/
def mdpStopAll (s : MDPState) : MDPState :=
  { s with timers := [], pollers := [], activePolls := [] }

/-- `getActivePolls` (lines 1433-1435): the keys of `activePolls`. -/
def mdpGetActivePolls (s : MDPState) : List String := s.activePolls

/-- The scheduler/environment events interleaved with the poller calls: a
timer firing starts a new fetch for the captured key, and a fetch completing
runs the tail of `fetchAndBroadcast`, which broadcasts unconditionally
(lines 1263-1265 run with no check that the key is still polled). -/
inductive MDPEvent where
  | startPolling (symbol expiry : String)
  | stopPolling (symbol expiry : String)
  | startIVPolling (symbol : String)
  | stopIVPolling (symbol : String)
  | timerFire (tid : Nat)
  | fetchComplete (i : Nat)
  | stopAll
deriving DecidableEq, Repr

/-- One step of the poller system. -/
def mdpStep (s : MDPState) : MDPEvent → MDPState
  | MDPEvent.startPolling sym exp => mdpStartPolling s sym exp
  | MDPEvent.stopPolling sym exp => mdpStopPolling s sym exp
  | MDPEvent.startIVPolling sym => mdpStartIVPolling s sym
  | MDPEvent.stopIVPolling sym => mdpStopIVPolling s sym
  | MDPEvent.timerFire tid =>
      match s.timers.find? (fun t => t.id = tid) with
      | none => s
      | some t => { s with inflight := s.inflight ++ [t.chan] }
  | MDPEvent.fetchComplete i =>
      match s.inflight.get? i with
      | none => s
      | some ch =>
        { s with
          inflight := s.inflight.eraseIdx i
          published := s.published ++ [ch] }
  | MDPEvent.stopAll => mdpStopAll s

/-- The poller at process start. -/
def mdpInit : MDPState := ⟨[], [], [], [], [], 0⟩

/-- Run an event sequence from process start. -/
def mdpRun (ops : List MDPEvent) : MDPState :=
  ops.foldl mdpStep mdpInit

/-- Runs in which the chain-poller key space and the IV key space are not
made to collide: no IV start/stop happens while its `iv:{symbol}` key is
simultaneously registered as a chain poll (which only a call like
`startPolling("iv", ...)` could cause). -/
def mdpWF (s : MDPState) : List MDPEvent → Bool
  | [] => true
  | e :: rest =>
      (match e with
       | MDPEvent.startIVPolling sym => !(decide (mkIVKey sym ∈ s.activePolls))
       | MDPEvent.stopIVPolling sym => !(decide (mkIVKey sym ∈ s.activePolls))
       | _ => true)
      && mdpWF (mdpStep s e) rest

/-! ## Helper lemmas -/

/-- `round2` is the identity on rationals that are whole multiples of
`1/100`. -/
lemma round2_cent (q : ℚ) (n : ℤ) (h : q * 100 = n) : round2 q = q := by
  have hq : q = (n : ℚ) / 100 := by
    field_simp
    linarith [h]
  have hfloor : Int.floor (q * 100 + 1/2) = n := by
    rw [h, add_comm, Int.floor_add_int]
    norm_num
  rw [round2, hfloor, ← hq]

/-- Multiplying a clamped difference of cent-valued rationals by 100 yields
an integer. -/
lemma cent_max_sub {x y : ℚ} {a b : ℤ} (hx : x * 100 = a) (hy : y * 100 = b) :
    (max 0 (x - y)) * 100 = ((max 0 (a - b) : ℤ) : ℚ) := by
  have h100 : (0:ℚ) ≤ 100 := by norm_num
  rw [max_mul_of_nonneg _ _ h100, zero_mul, sub_mul, hx, hy]
  push_cast
  rfl

/-- A client that is connected and whose socket does not throw is sent to
successfully. -/
lemma sendToClient_of_ok {c : WSClient} (h1 : c.isOpen = true)
    (h2 : c.sendFails = false) : sendToClient c = true := by
  simp [sendToClient, wsSendRaw, h1, h2]

/-- Closed form of the broadcast loop from any accumulator: it never raises
and accumulates exactly the successful sends. -/
lemma broadcastAttempt_ok (subs : List WSClient) : ∀ (n : Nat) (d : List Nat),
    broadcastAttempt subs (n, d) =
      Except.ok (n + (subs.filter (fun c => sendToClient c)).length,
        d ++ broadcastDelivered subs) := by
  induction subs with
  | nil => intro n d; simp [broadcastAttempt, broadcastDelivered]
  | cons c rest ih =>
      intro n d
      by_cases h : sendToClient c
      · rw [broadcastAttempt, if_pos h, ih]
        simp [broadcastDelivered, List.filter_cons, h]
        omega
      · rw [broadcastAttempt, if_neg h, ih]
        simp [broadcastDelivered, List.filter_cons, h]

/-- One `cacheStore` keeps the per-key history within the 3-entry bound. -/
lemma cacheStore_length_le {α : Type} (l : List (CacheEntry α)) (t : Nat)
    (d : α) (h : l.length ≤ 3) : (cacheStore l t d).length ≤ 3 := by
  simp only [cacheStore]
  split
  · simpa using h
  · simp at *
    omega

/-- Any run of `cacheStore` from a bounded history stays bounded. -/
lemma cacheStore_fold_le {α : Type} (ops : List (Nat × α)) :
    ∀ l : List (CacheEntry α), l.length ≤ 3 →
      (ops.foldl (fun l p => cacheStore l p.1 p.2) l).length ≤ 3 := by
  induction ops with
  | nil => intro l h; simpa using h
  | cons p rest ih =>
      intro l h
      exact ih _ (cacheStore_length_le l p.1 p.2 h)

/-! ## Claim theorems -/

/-- C8: `calculateTimeValue` does not equal `max(0, premium - intrinsic)`
for all inputs: the source rounds the result to two decimal places, so a
premium of 0.004 at the money yields 0, not 0.004. -/
theorem c8_counterexample :
    calculateTimeValue (1/250) 100 100 OptionType.CE ≠
      max 0 ((1:ℚ)/250 - max 0 (100 - 100)) := by
  norm_num [calculateTimeValue, intrinsicValue, round2]

/-- C8 (amended): for every premium, spot, strike and side,
`calculateTimeValue` equals `max(0, premium - intrinsic)` rounded to two
decimal places, where intrinsic is `max(0, S-K)` for CE and `max(0, K-S)`
for PE; the unrounded identity holds exactly whenever premium, S and K are
whole multiples of 0.01. -/
theorem c8_timeValue_rounding (p S K : ℚ) (ot : OptionType) :
    calculateTimeValue p S K ot = round2 (max 0 (p - intrinsicValue S K ot)) ∧
    (∀ a b c : ℤ, p * 100 = a → S * 100 = b → K * 100 = c →
      calculateTimeValue p S K ot = max 0 (p - intrinsicValue S K ot)) := by
  refine ⟨rfl, ?_⟩
  intro a b c ha hb hc
  have hint : ∃ m : ℤ, intrinsicValue S K ot * 100 = (m : ℚ) := by
    cases ot
    · exact ⟨max 0 (b - c), cent_max_sub hb hc⟩
    · exact ⟨max 0 (c - b), cent_max_sub hc hb⟩
  obtain ⟨m, hm⟩ := hint
  have hq : (max 0 (p - intrinsicValue S K ot)) * 100 =
      ((max 0 (a - m) : ℤ) : ℚ) := cent_max_sub ha hm
  exact round2_cent _ _ hq

/-- C8 witness: a cent-valued input where the identity holds exactly. -/
theorem c8_witness :
    (3:ℚ)/2 * 100 = ((150 : ℤ) : ℚ) ∧
    calculateTimeValue (3/2) 100 99 OptionType.CE =
      max 0 ((3:ℚ)/2 - intrinsicValue 100 99 OptionType.CE) := by
  refine ⟨by norm_num, ?_⟩
  exact (c8_timeValue_rounding (3/2) 100 99 OptionType.CE).2 150 10000 9900
    (by norm_num) (by norm_num) (by norm_num)

/-- C5: `calculateOIColor` behaves exactly as specified: the highest-OI
check dominates (strong color, no fade); otherwise with `previous > 0` a
+60% change gives the lighter tint, a -60% change gives the decay color
with fade, anything else is neutral; with `previous == 0` only the
highest-check applies and fade is always false. -/
theorem c5_oiColor_cases (oi prev high : ℚ) (isCE : Bool) :
    (oi = high ∧ 0 < high →
      calculateOIColor oi prev high isCE =
        ⟨if isCE then "#4caf50" else "#f44336", false⟩) ∧
    (0 < prev → ¬(oi = high ∧ 0 < high) →
      calculateOIColor oi prev high isCE =
        (if (oi - prev)/prev ≥ 3/5 then
          ⟨if isCE then "#c8e6c9" else "#f8bbd0", false⟩
         else if (oi - prev)/prev ≤ -(3/5) then ⟨"#ffeb3b", true⟩
         else ⟨"transparent", false⟩)) ∧
    (prev = 0 →
      calculateOIColor oi prev high isCE =
        ⟨if oi = high ∧ 0 < high then (if isCE then "#4caf50" else "#f44336")
          else "transparent", false⟩) := by
  refine ⟨?_, ?_, ?_⟩
  · intro h
    by_cases hp : prev = 0 <;> simp [calculateOIColor, hp, h]
  · intro hp hn
    have hp0 : prev ≠ 0 := ne_of_gt hp
    simp [calculateOIColor, hp0, hn]
  · intro hp
    by_cases hh : oi = high ∧ 0 < high <;> simp [calculateOIColor, hp, hh]

/-- C5 witness: the guarded divide-by-zero instance from the spec,
`oiColor(100, 0, 500, CE) = neutral, fade=false`. -/
theorem c5_witness :
    ((0:ℚ) = 0) ∧ calculateOIColor 100 0 500 true = ⟨"transparent", false⟩ := by
  refine ⟨rfl, ?_⟩
  have h := (c5_oiColor_cases 100 0 500 true).2.2 rfl
  rw [h]
  norm_num

/-- C3: the cache keeps at most 3 snapshots per key with the oldest evicted
first — after storing a, b, c, d the key holds exactly [b, c, d] and
`getPrevious` returns c (for both the in-memory and the Redis variant); in
general any history reachable by `store` has at most 3 entries,
`getPrevious` returns the second-to-last entry's payload, and it returns
null when fewer than 2 entries exist. -/
theorem c3_cache_bounded_history (α : Type) :
    (∀ (a b c d : α) (t1 t2 t3 t4 : Nat),
      ((cacheStore (cacheStore (cacheStore (cacheStore [] t1 a) t2 b) t3 c)
          t4 d).map (fun e => e.data) = [b, c, d] ∧
       cacheGetPrevious (cacheStore (cacheStore (cacheStore
          (cacheStore [] t1 a) t2 b) t3 c) t4 d) = some c) ∧
      ((redisStore (redisStore (redisStore (redisStore [] t1 a) t2 b) t3 c)
          t4 d).map (fun e => e.data) = [b, c, d] ∧
       cacheGetPrevious (redisStore (redisStore (redisStore
          (redisStore [] t1 a) t2 b) t3 c) t4 d) = some c)) ∧
    (∀ ops : List (Nat × α), (cacheRunStore ops).length ≤ 3) ∧
    (∀ (l : List (CacheEntry α)) (t : Nat) (d : α),
      (redisStore l t d).length ≤ 3) ∧
    (∀ (l : List (CacheEntry α)) (x y : CacheEntry α),
      cacheGetPrevious (l ++ [x, y]) = some x.data) ∧
    cacheGetPrevious ([] : List (CacheEntry α)) = none ∧
    (∀ e : CacheEntry α, cacheGetPrevious [e] = none) := by
  refine ⟨?_, ?_, ?_, ?_, ?_, ?_⟩
  · intro a b c d t1 t2 t3 t4
    constructor <;> constructor <;>
      simp [cacheStore, redisStore, cacheGetPrevious]
  · intro ops
    exact cacheStore_fold_le ops [] (by simp)
  · intro l t d
    simp only [redisStore]
    split
    · simp only [List.length_drop]
      omega
    · simp only [List.length_append, List.length_singleton] at *
      omega
  · intro l x y
    have hlen : 2 ≤ (l ++ [x, y]).length := by simp
    have h1 : (l ++ [x, y]).length - 2 = l.length := by simp
    have hget : (l ++ [x, y]).get? l.length = some x := by
      rw [List.get?_append_right (le_refl l.length)]
      simp
    unfold cacheGetPrevious
    rw [if_pos hlen, h1, hget]
    rfl
  · simp [cacheGetPrevious]
  · intro e; simp [cacheGetPrevious]

/-- C7: `broadcast` attempts delivery to every subscriber of the channel;
the loop never raises (each send goes through `sendToClient`, which catches
socket exceptions), and every currently-connected client whose socket does
not throw receives the payload whatever happens to the other clients. -/
theorem c7_broadcast_partial_failure (subscribers : List WSClient) :
    broadcastRun subscribers =
      Except.ok (broadcastSuccessCount subscribers,
        broadcastDelivered subscribers) ∧
    ∀ c ∈ subscribers, c.isOpen = true → c.sendFails = false →
      c.id ∈ broadcastDelivered subscribers := by
  constructor
  · rw [broadcastRun, broadcastAttempt_ok]
    simp [broadcastSuccessCount, broadcastDelivered]
  · intro c hc h1 h2
    have hs : sendToClient c = true := sendToClient_of_ok h1 h2
    exact List.mem_map_of_mem _ (List.mem_filter.mpr ⟨hc, hs⟩)

/-- A concrete subscriber list with one broken-but-open socket, one closed
socket and two healthy sockets. -/
def demoSubscribers : List WSClient :=
  [⟨1, true, false⟩, ⟨2, true, true⟩, ⟨3, false, false⟩, ⟨4, true, false⟩]

/-- C7 witness: the healthy client after the broken one still receives. -/
theorem c7_witness :
    WSClient.mk 4 true false ∈ demoSubscribers ∧
    (4 : Nat) ∈ broadcastDelivered demoSubscribers := by
  refine ⟨by decide, ?_⟩
  exact (c7_broadcast_partial_failure demoSubscribers).2 ⟨4, true, false⟩
    (by decide) rfl rfl

/-- When the previous volume defaults to the current one (cache miss), the
rising check is a comparison of 0 against 70% and the color degenerates to
highest-or-transparent. -/
lemma calculateVolumeColor_self (v high : ℚ) (isCE : Bool) :
    calculateVolumeColor v v high isCE =
      if v = high ∧ 0 < high then (if isCE then "#4caf50" else "#f44336")
      else "transparent" := by
  have hr : ¬(0 < v ∧ (v - v) / v ≥ 7/10) := by
    rintro ⟨h1, h2⟩
    rw [sub_self, zero_div] at h2
    norm_num at h2
  by_cases hh : v = high ∧ 0 < high <;>
    simp [calculateVolumeColor, hh, hr]

/-- When the previous OI defaults to the current one (cache miss), the
percent change is 0 (or the zero-guard branch is taken) and the color
degenerates to highest-or-transparent with no fade. -/
lemma calculateOIColor_self (oi high : ℚ) (isCE : Bool) :
    calculateOIColor oi oi high isCE =
      ⟨if oi = high ∧ 0 < high then (if isCE then "#4caf50" else "#f44336")
        else "transparent", false⟩ := by
  by_cases h0 : oi = 0
  · subst h0
    by_cases hh : (0:ℚ) = high ∧ 0 < high <;> simp [calculateOIColor, hh]
  · have hch : (oi - oi) / oi = 0 := by rw [sub_self, zero_div]
    by_cases hh : oi = high ∧ 0 < high
    · simp [calculateOIColor, h0, hh]
    · simp only [calculateOIColor, if_neg h0, hch]
      rw [if_neg hh]
      norm_num
      rw [if_neg hh]

/-- C4 (amended): on a cache-miss tick (`getPrevious` returned null), every
previous value defaults to the current value, so both fade flags are false,
every percent-change division has a nonzero denominator (the zero case takes
the guarded branch), and every color is transparent except that strikes
holding a side's maximum volume or OI (when positive) get the strong
color. -/
theorem c4_cache_miss_colors (strikes : List StrikeData) :
    enrichColors strikes none =
      strikes.map (fun s =>
        { strikePrice := s.strikePrice
          ceVolumeColor :=
            if s.ceVolume = (findHighestVolumes strikes).highestCEVolume ∧
                0 < (findHighestVolumes strikes).highestCEVolume
            then "#4caf50" else "transparent"
          peVolumeColor :=
            if s.peVolume = (findHighestVolumes strikes).highestPEVolume ∧
                0 < (findHighestVolumes strikes).highestPEVolume
            then "#f44336" else "transparent"
          ceOIColor :=
            if s.ceOI = (findHighestOI strikes).highestCEOI ∧
                0 < (findHighestOI strikes).highestCEOI
            then "#4caf50" else "transparent"
          ceShouldFadeOI := false
          peOIColor :=
            if s.peOI = (findHighestOI strikes).highestPEOI ∧
                0 < (findHighestOI strikes).highestPEOI
            then "#f44336" else "transparent"
          peShouldFadeOI := false }) := by
  unfold enrichColors
  simp only [Option.none_bind, Option.map_none', orFallback]
  congr 1
  funext s
  rw [calculateVolumeColor_self, calculateVolumeColor_self,
    calculateOIColor_self, calculateOIColor_self]
  simp

/-- A one-strike chain whose CE open interest is necessarily the side
maximum. -/
def cacheMissStrikes : List StrikeData := [⟨100, 10, 5, 20, 7⟩]

/-- C4 counterexample: on a cache-miss tick, the strike holding the highest
CE open interest is published with the strong green OI color, not the
neutral/transparent color the claim requires for every strike. -/
theorem c4_counterexample :
    (enrichColors cacheMissStrikes none).map (fun e => e.ceOIColor) =
      ["#4caf50"] ∧ ("#4caf50" : String) ≠ "transparent" := by
  constructor
  · norm_num [enrichColors, cacheMissStrikes, findHighestOI,
      findHighestVolumes, calculateOIColor, calculateVolumeColor, orFallback]
  · decide

/-! ## Registry invariant lemmas -/

/-- Membership in a JS-set insertion. -/
lemma mem_setAdd {α : Type} [DecidableEq α] {l : List α} {x a : α} :
    a ∈ setAdd l x ↔ a ∈ l ∨ a = x := by
  by_cases h : x ∈ l
  · simp only [setAdd, if_pos h]
    constructor
    · exact Or.inl
    · rintro (h1 | rfl)
      · exact h1
      · exact h
  · simp [setAdd, if_neg h]

/-- JS-set insertion keeps the list duplicate-free. -/
lemma nodup_setAdd {α : Type} [DecidableEq α] {l : List α} (h : l.Nodup)
    (x : α) : (setAdd l x).Nodup := by
  by_cases hx : x ∈ l
  · simpa [setAdd, hx] using h
  · simp [setAdd, hx, h, List.nodup_append]

/-- A JS-set insertion is never empty. -/
lemma setAdd_ne_nil {α : Type} [DecidableEq α] (l : List α) (x : α) :
    setAdd l x ≠ [] := by
  by_cases h : x ∈ l
  · simp only [setAdd, if_pos h]
    rintro rfl
    simp at h
  · simp [setAdd, if_neg h]

/-- Pointwise view of the client index after `subscribe`. -/
lemma wsSubscribe_clients {s : WSState} {ws : Nat} {subs : List String}
    (hc : s.clients ws = some subs) (key : String) (w : Nat) :
    (wsSubscribe s ws key).clients w =
      if w = ws then some (setAdd subs key) else s.clients w := by
  simp [wsSubscribe, hc]

/-- Pointwise view of the channel index after `subscribe`. -/
lemma wsSubscribe_channels {s : WSState} {ws : Nat} {subs : List String}
    (hc : s.clients ws = some subs) (key : String) (ch : String) :
    (wsSubscribe s ws key).channelSubscribers ch =
      if ch = key then
        some (setAdd ((s.channelSubscribers key).getD []) ws)
      else s.channelSubscribers ch := by
  simp [wsSubscribe, hc]

/-- Pointwise view of the client index after `unsubscribe`. -/
lemma wsUnsubscribe_clients {s : WSState} {ws : Nat} {subs : List String}
    (hc : s.clients ws = some subs) (key : String) (w : Nat) :
    (wsUnsubscribe s ws key).clients w =
      if w = ws then some (subs.erase key) else s.clients w := by
  simp [wsUnsubscribe, hc]

/-- Pointwise view of the channel index after `unsubscribe`. -/
lemma wsUnsubscribe_channels {s : WSState} {ws : Nat} {subs : List String}
    (hc : s.clients ws = some subs) (key : String) (ch : String) :
    (wsUnsubscribe s ws key).channelSubscribers ch =
      if ch = key then removeOne (s.channelSubscribers key) ws
      else s.channelSubscribers ch := by
  simp [wsUnsubscribe, hc]

/-- The `removeClient` cleanup loop, evaluated at one channel: a channel in
the client's subscription set loses the socket once; the rest is
untouched. -/
lemma foldRemove_apply (ws : Nat) (subs : List String) (hn : subs.Nodup) :
    ∀ (chans : String → Option (List Nat)) (ch : String),
      (subs.foldl (fun cs k => removeWsFromChannel cs k ws) chans) ch =
        if ch ∈ subs then removeOne (chans ch) ws else chans ch := by
  induction subs with
  | nil => intro chans ch; simp
  | cons k rest ih =>
      intro chans ch
      have hkr : k ∉ rest := (List.nodup_cons.mp hn).1
      have hn2 : rest.Nodup := (List.nodup_cons.mp hn).2
      simp only [List.foldl_cons]
      rw [ih hn2]
      by_cases hck : ch = k
      · subst hck
        rw [if_neg hkr, if_pos (List.mem_cons_self ch rest)]
        simp [removeWsFromChannel]
      · by_cases hcr : ch ∈ rest
        · rw [if_pos hcr, if_pos (List.mem_cons_of_mem k hcr)]
          have : removeWsFromChannel chans k ws ch = chans ch := by
            simp [removeWsFromChannel, hck]
          rw [this]
        · rw [if_neg hcr]
          have hckr : ch ∉ k :: rest := by simp [hck, hcr]
          rw [if_neg hckr]
          simp [removeWsFromChannel, hck]

/-- Pointwise view of the client index after `removeClient`. -/
lemma wsRemoveClient_clients {s : WSState} {ws : Nat} {subs : List String}
    (hc : s.clients ws = some subs) (w : Nat) :
    (wsRemoveClient s ws).clients w =
      if w = ws then none else s.clients w := by
  simp [wsRemoveClient, hc]

/-- Pointwise view of the channel index after `removeClient`. -/
lemma wsRemoveClient_channels {s : WSState} {ws : Nat} {subs : List String}
    (hc : s.clients ws = some subs) (hn : subs.Nodup) (ch : String) :
    (wsRemoveClient s ws).channelSubscribers ch =
      if ch ∈ subs then removeOne (s.channelSubscribers ch) ws
      else s.channelSubscribers ch := by
  simp only [wsRemoveClient, hc]
  exact foldRemove_apply ws subs hn s.channelSubscribers ch

/-- `removeOne` keeps surviving channels duplicate-free and nonempty. -/
lemma removeOne_wf {l : Option (List Nat)} {ws : Nat}
    (h : ∀ l0, l = some l0 → l0.Nodup ∧ l0 ≠ []) :
    ∀ l2, removeOne l ws = some l2 → l2.Nodup ∧ l2 ≠ [] := by
  intro l2 h2
  cases l with
  | none => simp [removeOne] at h2
  | some l0 =>
      have hl0 := h l0 rfl
      simp only [removeOne] at h2
      by_cases he : l0.erase ws = []
      · simp [he] at h2
      · rw [if_neg he] at h2
        cases h2
        exact ⟨hl0.1.erase ws, he⟩

/-- Membership in a surviving channel after `removeOne`, for another
socket. -/
lemma removeOne_mem_ne {l : Option (List Nat)} {ws w : Nat} (hne : w ≠ ws) :
    (∃ l2, removeOne l ws = some l2 ∧ w ∈ l2) ↔
    (∃ l0, l = some l0 ∧ w ∈ l0) := by
  cases l with
  | none => simp [removeOne]
  | some l0 =>
      simp only [removeOne]
      by_cases he : l0.erase ws = []
      · simp only [if_pos he]
        constructor
        · rintro ⟨l2, h2, _⟩; cases h2
        · rintro ⟨l1, h1, hw⟩
          cases h1
          have : w ∈ l0.erase ws := (List.mem_erase_of_ne hne).mpr hw
          rw [he] at this
          simp at this
      · simp only [if_neg he]
        constructor
        · rintro ⟨l2, h2, hw⟩
          cases h2
          exact ⟨l0, rfl, ((List.mem_erase_of_ne hne).mp hw)⟩
        · rintro ⟨l1, h1, hw⟩
          cases h1
          exact ⟨l0.erase ws, rfl, (List.mem_erase_of_ne hne).mpr hw⟩

/-- The removed socket is in no surviving channel after `removeOne`. -/
lemma removeOne_not_mem_self {l : Option (List Nat)} {ws : Nat}
    (h : ∀ l0, l = some l0 → l0.Nodup) :
    ¬ ∃ l2, removeOne l ws = some l2 ∧ ws ∈ l2 := by
  rintro ⟨l2, h2, hw⟩
  cases l with
  | none => simp [removeOne] at h2
  | some l0 =>
      simp only [removeOne] at h2
      by_cases he : l0.erase ws = []
      · simp [he] at h2
      · rw [if_neg he] at h2
        cases h2
        exact ((h l0 rfl).mem_erase_iff.mp hw).1 rfl

/-- `subscribe` preserves the registry invariant. -/
lemma wsInv_subscribe {s : WSState} (h : WSInv s) (ws : Nat) (key : String) :
    WSInv (wsSubscribe s ws key) := by
  obtain ⟨h1, h2, h3⟩ := h
  cases hc : s.clients ws with
  | none =>
      have he : wsSubscribe s ws key = s := by simp [wsSubscribe, hc]
      rw [he]
      exact ⟨h1, h2, h3⟩
  | some subs =>
      refine ⟨?_, ?_, ?_⟩
      · intro w subs2 hw
        rw [wsSubscribe_clients hc key w] at hw
        by_cases hww : w = ws
        · rw [if_pos hww] at hw
          cases hw
          exact nodup_setAdd (h1 ws subs hc) key
        · rw [if_neg hww] at hw
          exact h1 w subs2 hw
      · intro ch l hl
        rw [wsSubscribe_channels hc key ch] at hl
        by_cases hck : ch = key
        · rw [if_pos hck] at hl
          cases hl
          refine ⟨?_, setAdd_ne_nil _ _⟩
          apply nodup_setAdd _ ws
          cases hcs : s.channelSubscribers key with
          | none => simp
          | some l0 => simpa using (h2 key l0 hcs).1
        · rw [if_neg hck] at hl
          exact h2 ch l hl
      · intro w ch
        rw [wsSubscribe_clients hc key w, wsSubscribe_channels hc key ch]
        by_cases hww : w = ws <;> by_cases hck : ch = key
        · subst hww; subst hck
          simp [mem_setAdd]
        · subst hww
          rw [if_pos rfl, if_neg hck]
          have hold := h3 w ch
          rw [hc] at hold
          simp only [Option.some.injEq, exists_eq_left,
            exists_eq_left'] at hold ⊢
          rw [mem_setAdd]
          constructor
          · rintro (hm | rfl)
            · exact hold.mp hm
            · exact absurd rfl hck
          · intro hr
            exact Or.inl (hold.mpr hr)
        · subst hck
          rw [if_neg hww, if_pos rfl]
          simp only [Option.some.injEq, exists_eq_left, exists_eq_left']
          rw [mem_setAdd]
          constructor
          · intro hl
            obtain ⟨l0, hl0, hm⟩ := (h3 w ch).mp hl
            rw [hl0]
            exact Or.inl (by simpa using hm)
          · rintro (hm | rfl)
            · apply (h3 w ch).mpr
              cases hcs : s.channelSubscribers ch with
              | none => rw [hcs] at hm; simp at hm
              | some l0 =>
                  rw [hcs] at hm
                  exact ⟨l0, rfl, by simpa using hm⟩
            · exact absurd rfl hww
        · rw [if_neg hww, if_neg hck]
          exact h3 w ch

/-- `unsubscribe` preserves the registry invariant. -/
lemma wsInv_unsubscribe {s : WSState} (h : WSInv s) (ws : Nat)
    (key : String) : WSInv (wsUnsubscribe s ws key) := by
  obtain ⟨h1, h2, h3⟩ := h
  cases hc : s.clients ws with
  | none =>
      have he : wsUnsubscribe s ws key = s := by simp [wsUnsubscribe, hc]
      rw [he]
      exact ⟨h1, h2, h3⟩
  | some subs =>
      refine ⟨?_, ?_, ?_⟩
      · intro w subs2 hw
        rw [wsUnsubscribe_clients hc key w] at hw
        by_cases hww : w = ws
        · rw [if_pos hww] at hw
          cases hw
          exact (h1 ws subs hc).erase key
        · rw [if_neg hww] at hw
          exact h1 w subs2 hw
      · intro ch l hl
        rw [wsUnsubscribe_channels hc key ch] at hl
        by_cases hck : ch = key
        · rw [if_pos hck] at hl
          exact removeOne_wf (fun l0 h0 => h2 key l0 h0) l hl
        · rw [if_neg hck] at hl
          exact h2 ch l hl
      · intro w ch
        rw [wsUnsubscribe_clients hc key w, wsUnsubscribe_channels hc key ch]
        by_cases hww : w = ws <;> by_cases hck : ch = key
        · subst hww
          subst hck
          rw [if_pos rfl, if_pos rfl]
          simp only [Option.some.injEq, exists_eq_left, exists_eq_left']
          constructor
          · intro hm
            exact absurd ((h1 w _ hc).mem_erase_iff.mp hm).1 (by simp)
          · intro hr
            exact absurd hr
              (removeOne_not_mem_self (fun l0 h0 => (h2 ch l0 h0).1))
        · subst hww
          rw [if_pos rfl, if_neg hck]
          have hold := h3 w ch
          rw [hc] at hold
          simp only [Option.some.injEq, exists_eq_left,
            exists_eq_left'] at hold ⊢
          rw [(h1 w subs hc).mem_erase_iff]
          constructor
          · rintro ⟨_, hm⟩
            exact hold.mp hm
          · intro hr
            exact ⟨hck, hold.mpr hr⟩
        · subst hck
          rw [if_neg hww, if_pos rfl]
          rw [removeOne_mem_ne hww]
          exact h3 w ch
        · rw [if_neg hww, if_neg hck]
          exact h3 w ch

/-- `removeClient` (disconnect) preserves the registry invariant. -/
lemma wsInv_removeClient {s : WSState} (h : WSInv s) (ws : Nat) :
    WSInv (wsRemoveClient s ws) := by
  obtain ⟨h1, h2, h3⟩ := h
  cases hc : s.clients ws with
  | none =>
      have he : wsRemoveClient s ws = s := by simp [wsRemoveClient, hc]
      rw [he]
      exact ⟨h1, h2, h3⟩
  | some subs =>
      have hns : subs.Nodup := h1 ws subs hc
      refine ⟨?_, ?_, ?_⟩
      · intro w subs2 hw
        rw [wsRemoveClient_clients hc w] at hw
        by_cases hww : w = ws
        · rw [if_pos hww] at hw
          cases hw
        · rw [if_neg hww] at hw
          exact h1 w subs2 hw
      · intro ch l hl
        rw [wsRemoveClient_channels hc hns ch] at hl
        by_cases hch : ch ∈ subs
        · rw [if_pos hch] at hl
          exact removeOne_wf (fun l0 h0 => h2 ch l0 h0) l hl
        · rw [if_neg hch] at hl
          exact h2 ch l hl
      · intro w ch
        rw [wsRemoveClient_clients hc w, wsRemoveClient_channels hc hns ch]
        by_cases hww : w = ws
        · subst hww
          rw [if_pos rfl]
          constructor
          · rintro ⟨subs2, hfalse, _⟩
            cases hfalse
          · intro hr
            exfalso
            by_cases hch : ch ∈ subs
            · rw [if_pos hch] at hr
              exact removeOne_not_mem_self
                (fun l0 h0 => (h2 ch l0 h0).1) hr
            · rw [if_neg hch] at hr
              obtain ⟨subs0, hs0, hm⟩ := (h3 w ch).mpr hr
              rw [hc] at hs0
              cases hs0
              exact hch hm
        · rw [if_neg hww]
          by_cases hch : ch ∈ subs
          · rw [if_pos hch, removeOne_mem_ne hww]
            exact h3 w ch
          · rw [if_neg hch]
            exact h3 w ch

/-- A `connection` event for a fresh socket preserves the registry
invariant. -/
lemma wsInv_connect {s : WSState} (h : WSInv s) (ws : Nat)
    (hfresh : s.clients ws = none) : WSInv (wsConnect s ws) := by
  obtain ⟨h1, h2, h3⟩ := h
  refine ⟨?_, ?_, ?_⟩
  · intro w subs hw
    simp only [wsConnect] at hw
    by_cases hww : w = ws
    · rw [if_pos hww] at hw
      cases hw
      simp
    · rw [if_neg hww] at hw
      exact h1 w subs hw
  · intro ch l hl
    exact h2 ch l hl
  · intro w ch
    simp only [wsConnect]
    by_cases hww : w = ws
    · rw [if_pos hww]
      simp only [Option.some.injEq, exists_eq_left, exists_eq_left']
      constructor
      · intro hm
        simp at hm
      · intro hr
        exfalso
        obtain ⟨subs0, hs0, _⟩ := (h3 w ch).mpr hr
        rw [hww, hfresh] at hs0
        cases hs0
    · rw [if_neg hww]
      exact h3 w ch

/-- The registry starts consistent. -/
lemma wsInv_init : WSInv wsInit := by
  refine ⟨?_, ?_, ?_⟩ <;> intros <;> simp_all [wsInit]

/-- Any well-formed event run preserves the registry invariant. -/
lemma wsInv_run : ∀ (ops : List WSOp) (s : WSState), WSInv s →
    wsWF s ops = true → WSInv (wsRun s ops) := by
  intro ops
  induction ops with
  | nil =>
      intro s h _
      simpa [wsRun] using h
  | cons op rest ih =>
      intro s h hwf
      rw [wsRun]
      cases op with
      | connect ws =>
          simp only [wsWF, Bool.and_eq_true] at hwf
          exact ih _ (wsInv_connect h ws
            (Option.isNone_iff_eq_none.mp hwf.1)) hwf.2
      | subscribe ws key =>
          simp only [wsWF, Bool.true_and] at hwf
          exact ih _ (wsInv_subscribe h ws key) hwf
      | unsubscribe ws key =>
          simp only [wsWF, Bool.true_and] at hwf
          exact ih _ (wsInv_unsubscribe h ws key) hwf
      | disconnect ws =>
          simp only [wsWF, Bool.true_and] at hwf
          exact ih _ (wsInv_removeClient h ws) hwf

/-- C10: after every sequence of subscribe, unsubscribe and disconnect
events (with connections handing out fresh handles), the two indices stay
mutually consistent — a socket is in `channelSubscribers[k]` exactly when
`k` is in its client record's subscription set — and `channelSubscribers`
never maps a key to an empty set. -/
theorem c10_registry_consistency (ops : List WSOp)
    (h : wsWF wsInit ops = true) : WSInv (wsRun wsInit ops) :=
  wsInv_run ops wsInit wsInv_init h

/-- A concrete registry run: two clients sharing a channel, a duplicate
subscribe, an unsubscribe and a disconnect that empties the channel. -/
def demoRegistryOps : List WSOp :=
  [WSOp.connect 1, WSOp.subscribe 1 "chain:NIFTY", WSOp.subscribe 1 "chain:NIFTY",
   WSOp.connect 2, WSOp.subscribe 2 "chain:NIFTY",
   WSOp.unsubscribe 1 "chain:NIFTY", WSOp.disconnect 2]

/-- C10 witness: the invariant holds after the concrete run. -/
theorem c10_witness :
    wsWF wsInit demoRegistryOps = true ∧ WSInv (wsRun wsInit demoRegistryOps) :=
  ⟨by decide, c10_registry_consistency demoRegistryOps (by decide)⟩

/-! ## Association-map lemmas for the poller state -/

/-- A lookup misses exactly when the key is absent. -/
lemma alookup_eq_none {l : List (String × Nat)} {k : String} :
    alookup l k = none ↔ k ∉ l.map Prod.fst := by
  induction l with
  | nil => simp [alookup]
  | cons p rest ih =>
      obtain ⟨k1, v1⟩ := p
      by_cases hk : k1 = k
      · subst hk
        simp [alookup]
      · rw [alookup, if_neg hk, ih]
        simp only [List.map_cons, List.mem_cons]
        constructor
        · intro h hm
          rcases hm with h1 | h1
          · exact hk h1.symm
          · exact h h1
        · intro h hm
          exact h (Or.inr hm)

/-- A successful lookup is a membership. -/
lemma alookup_mem {l : List (String × Nat)} {k : String} {v : Nat}
    (h : alookup l k = some v) : (k, v) ∈ l := by
  induction l with
  | nil => simp [alookup] at h
  | cons p rest ih =>
      obtain ⟨k1, v1⟩ := p
      by_cases hk : k1 = k
      · subst hk
        rw [alookup, if_pos rfl] at h
        cases h
        exact List.mem_cons_self _ _
      · rw [alookup, if_neg hk] at h
        exact List.mem_cons_of_mem _ (ih h)

/-- Lookup after `Map.delete`. -/
lemma alookup_aerase (l : List (String × Nat)) (k k2 : String) :
    alookup (aerase l k) k2 = if k2 = k then none else alookup l k2 := by
  induction l with
  | nil => simp [alookup, aerase]
  | cons p rest ih =>
      obtain ⟨k1, v1⟩ := p
      by_cases hk : k1 = k
      · subst hk
        rw [aerase, if_pos rfl, ih]
        by_cases h2 : k2 = k1
        · simp [h2]
        · rw [if_neg h2, if_neg h2, alookup,
            if_neg (fun h : k1 = k2 => h2 h.symm)]
      · rw [aerase, if_neg hk]
        by_cases h12 : k1 = k2
        · have hk2 : ¬ k2 = k := fun hq => hk (h12 ▸ hq)
          rw [alookup, if_pos h12, if_neg hk2, alookup, if_pos h12]
        · rw [alookup, if_neg h12, ih]
          by_cases h2k : k2 = k
          · simp [h2k]
          · rw [if_neg h2k, if_neg h2k, alookup, if_neg h12]

/-- `Map.delete` only drops pairs at the deleted key. -/
lemma mem_aerase {l : List (String × Nat)} {k : String}
    {p : String × Nat} (h : p ∈ aerase l k) : p ∈ l ∧ p.1 ≠ k := by
  induction l with
  | nil => simp [aerase] at h
  | cons q rest ih =>
      obtain ⟨k1, v1⟩ := q
      by_cases hk : k1 = k
      · subst hk
        rw [aerase, if_pos rfl] at h
        exact ⟨List.mem_cons_of_mem _ (ih h).1, (ih h).2⟩
      · rw [aerase, if_neg hk] at h
        rcases List.mem_cons.mp h with h1 | h1
        · subst h1
          exact ⟨List.mem_cons_self _ _, hk⟩
        · exact ⟨List.mem_cons_of_mem _ (ih h1).1, (ih h1).2⟩

/-- Keys surviving a `Map.delete` come from the original key list. -/
lemma map_fst_aerase_subset {l : List (String × Nat)} {k a : String}
    (h : a ∈ (aerase l k).map Prod.fst) : a ∈ l.map Prod.fst := by
  obtain ⟨p, hp, hpa⟩ := List.mem_map.mp h
  exact List.mem_map.mpr ⟨p, (mem_aerase hp).1, hpa⟩

/-- `Map.delete` keeps the key list duplicate-free. -/
lemma aerase_map_fst_nodup {l : List (String × Nat)} {k : String}
    (h : (l.map Prod.fst).Nodup) : ((aerase l k).map Prod.fst).Nodup := by
  induction l with
  | nil => simp [aerase]
  | cons q rest ih =>
      obtain ⟨k1, v1⟩ := q
      simp only [List.map_cons, List.nodup_cons] at h
      by_cases hk : k1 = k
      · rw [aerase, if_pos hk]
        exact ih h.2
      · rw [aerase, if_neg hk]
        simp only [List.map_cons, List.nodup_cons]
        exact ⟨fun hm => h.1 (map_fst_aerase_subset hm), ih h.2⟩

/-- `Map.set` on an absent key appends the binding. -/
lemma aset_of_not_mem {l : List (String × Nat)} {k : String}
    (h : k ∉ l.map Prod.fst) (v : Nat) : aset l k v = l ++ [(k, v)] := by
  induction l with
  | nil => simp [aset]
  | cons q rest ih =>
      obtain ⟨k1, v1⟩ := q
      simp only [List.map_cons, List.mem_cons] at h
      push_neg at h
      rw [aset, if_neg (fun hq : k1 = k => h.1 hq.symm), ih h.2]
      simp

/-- Lookup distributes over append when the head misses. -/
lemma alookup_append_of_none {l1 l2 : List (String × Nat)} {k : String}
    (h : alookup l1 k = none) : alookup (l1 ++ l2) k = alookup l2 k := by
  induction l1 with
  | nil => simp
  | cons q rest ih =>
      obtain ⟨k1, v1⟩ := q
      by_cases hk : k1 = k
      · rw [alookup, if_pos hk] at h
        cases h
      · rw [alookup, if_neg hk] at h
        rw [List.cons_append, alookup, if_neg hk]
        exact ih h

/-- Lookup ignores the tail when the head hits. -/
lemma alookup_append_of_some {l1 l2 : List (String × Nat)} {k : String}
    {v : Nat} (h : alookup l1 k = some v) : alookup (l1 ++ l2) k = some v := by
  induction l1 with
  | nil => simp [alookup] at h
  | cons q rest ih =>
      obtain ⟨k1, v1⟩ := q
      by_cases hk : k1 = k
      · rw [alookup, if_pos hk] at h
        rw [List.cons_append, alookup, if_pos hk]
        exact h
      · rw [alookup, if_neg hk] at h
        rw [List.cons_append, alookup, if_neg hk]
        exact ih h

/-- Lookup at another key ignores a single appended binding. -/
lemma alookup_append_single_ne {l : List (String × Nat)} {k0 k : String}
    (hne : k ≠ k0) (v0 : Nat) :
    alookup (l ++ [(k0, v0)]) k = alookup l k := by
  cases h : alookup l k with
  | none =>
      rw [alookup_append_of_none h, alookup,
        if_neg (fun hq : k0 = k => hne hq.symm)]
      rfl
  | some v => exact alookup_append_of_some h

/-- Structural invariant of the poller's bookkeeping: poller keys are
unique, installed timers and `pollers` entries are in exact bijection, and
all timer ids are below the id counter. -/
def InvMDP (s : MDPState) : Prop :=
  (s.pollers.map Prod.fst).Nodup ∧
  (∀ t ∈ s.timers, alookup s.pollers t.key = some t.id) ∧
  (∀ k tid, alookup s.pollers k = some tid →
    ∃ t ∈ s.timers, t.id = tid ∧ t.key = k) ∧
  (s.timers.map TimerRec.id).Nodup ∧
  (∀ t ∈ s.timers, t.id < s.nextId) ∧
  (∀ kv ∈ s.pollers, kv.2 < s.nextId)

/-- Clearing the timer found for a key (the body of `stopPolling` /
`stopIVPolling`) preserves the poller invariant, whatever happens to
`activePolls`. -/
lemma invMDP_clear (s : MDPState) (key : String) (tid : Nat)
    (A : List String) (h : InvMDP s)
    (hlk : alookup s.pollers key = some tid) :
    InvMDP { pollers := aerase s.pollers key, activePolls := A,
             timers := s.timers.filter (fun t => t.id ≠ tid),
             inflight := s.inflight, published := s.published,
             nextId := s.nextId } := by
  obtain ⟨h1, h2, h3, h4, h5, h6⟩ := h
  obtain ⟨t0, ht0, ht0id, ht0key⟩ := h3 key tid hlk
  refine ⟨?_, ?_, ?_, ?_, ?_, ?_⟩
  · exact aerase_map_fst_nodup h1
  · intro t ht
    obtain ⟨htm, htid⟩ := List.mem_filter.mp ht
    have htid2 : t.id ≠ tid := by simpa using htid
    have hkey : t.key ≠ key := by
      intro hk
      apply htid2
      have := h2 t htm
      rw [hk, hlk] at this
      exact (Option.some.injEq _ _).mp this.symm
    rw [alookup_aerase, if_neg hkey]
    exact h2 t htm
  · intro k tid2 hk2
    rw [alookup_aerase] at hk2
    by_cases hkk : k = key
    · rw [if_pos hkk] at hk2
      cases hk2
    · rw [if_neg hkk] at hk2
      obtain ⟨t, ht, htid, htkey⟩ := h3 k tid2 hk2
      refine ⟨t, List.mem_filter.mpr ⟨ht, ?_⟩, htid, htkey⟩
      simp only [ne_eq, decide_not, Bool.not_eq_true', decide_eq_false_iff_not]
      intro hteq
      have : t = t0 := List.inj_on_of_nodup_map h4 ht ht0
        (by rw [hteq, ht0id])
      apply hkk
      rw [← htkey, this, ht0key]
  · exact List.Nodup.sublist
      ((List.filter_sublist _).map TimerRec.id) h4
  · intro t ht
    exact h5 t (List.mem_filter.mp ht).1
  · intro kv hkv
    exact h6 kv (mem_aerase hkv).1

/-- Installing a fresh timer for an absent key (the tail of `startPolling`
/ `startIVPolling`) preserves the poller invariant. -/
lemma invMDP_install (s1 : MDPState) (key chan : String)
    (A I P : List String) (h : InvMDP s1)
    (hk : alookup s1.pollers key = none) :
    InvMDP { pollers := aset s1.pollers key s1.nextId, activePolls := A,
             timers := ⟨s1.nextId, key, chan⟩ :: s1.timers,
             inflight := I, published := P,
             nextId := s1.nextId + 1 } := by
  obtain ⟨h1, h2, h3, h4, h5, h6⟩ := h
  have hnm : key ∉ s1.pollers.map Prod.fst := alookup_eq_none.mp hk
  have hset : aset s1.pollers key s1.nextId =
      s1.pollers ++ [(key, s1.nextId)] := aset_of_not_mem hnm _
  refine ⟨?_, ?_, ?_, ?_, ?_, ?_⟩
  · rw [hset, List.map_append]
    simp only [List.map_cons, List.map_nil]
    rw [List.nodup_append]
    exact ⟨h1, List.nodup_singleton key, by simpa using hnm⟩
  · intro t ht
    rcases List.mem_cons.mp ht with h1t | h1t
    · subst h1t
      rw [hset]
      simp only
      rw [alookup_append_of_none hk, alookup, if_pos rfl]
    · have htkey : t.key ≠ key := by
        intro hkk
        have := h2 t h1t
        rw [hkk, hk] at this
        cases this
      rw [hset, alookup_append_single_ne htkey]
      exact h2 t h1t
  · intro k tid2 hk2
    rw [hset] at hk2
    by_cases hkk : k = key
    · subst hkk
      rw [alookup_append_of_none hk, alookup, if_pos rfl] at hk2
      cases hk2
      exact ⟨⟨s1.nextId, k, chan⟩, List.mem_cons_self _ _, rfl, rfl⟩
    · rw [alookup_append_single_ne hkk] at hk2
      obtain ⟨t, ht, htid, htkey⟩ := h3 k tid2 hk2
      exact ⟨t, List.mem_cons_of_mem _ ht, htid, htkey⟩
  · simp only [List.map_cons, List.nodup_cons]
    refine ⟨?_, h4⟩
    intro hm
    obtain ⟨t, ht, htid⟩ := List.mem_map.mp hm
    exact absurd htid (Nat.ne_of_lt (h5 t ht))
  · intro t ht
    rcases List.mem_cons.mp ht with h1t | h1t
    · subst h1t
      exact Nat.lt_succ_self _
    · exact Nat.lt_succ_of_lt (h5 t h1t)
  · intro kv hkv
    rw [hset] at hkv
    rcases List.mem_append.mp hkv with h1t | h1t
    · exact Nat.lt_succ_of_lt (h6 kv h1t)
    · rw [List.mem_singleton.mp h1t]
      exact Nat.lt_succ_self _

/-- After `stopPolling` the key has no registered timer. -/
lemma stopPolling_lookup_none (s : MDPState) (sym exp : String) :
    alookup (mdpStopPolling s sym exp).pollers (mkKey sym exp) = none := by
  cases hlk : alookup s.pollers (mkKey sym exp) with
  | none => simp [mdpStopPolling, hlk]
  | some tid => simp [mdpStopPolling, hlk, alookup_aerase]

/-- After `stopIVPolling` the IV key has no registered timer. -/
lemma stopIVPolling_lookup_none (s : MDPState) (sym : String) :
    alookup (mdpStopIVPolling s sym).pollers (mkIVKey sym) = none := by
  cases hlk : alookup s.pollers (mkIVKey sym) with
  | none => simp [mdpStopIVPolling, hlk]
  | some tid => simp [mdpStopIVPolling, hlk, alookup_aerase]

/-- `stopPolling` preserves the poller invariant. -/
lemma invMDP_stopPolling {s : MDPState} (h : InvMDP s) (sym exp : String) :
    InvMDP (mdpStopPolling s sym exp) := by
  cases hlk : alookup s.pollers (mkKey sym exp) with
  | none => simpa [mdpStopPolling, hlk] using h
  | some tid =>
      have := invMDP_clear s (mkKey sym exp) tid
        (s.activePolls.erase (mkKey sym exp)) h hlk
      simpa [mdpStopPolling, hlk] using this

/-- `stopIVPolling` preserves the poller invariant. -/
lemma invMDP_stopIVPolling {s : MDPState} (h : InvMDP s) (sym : String) :
    InvMDP (mdpStopIVPolling s sym) := by
  cases hlk : alookup s.pollers (mkIVKey sym) with
  | none => simpa [mdpStopIVPolling, hlk] using h
  | some tid =>
      have := invMDP_clear s (mkIVKey sym) tid s.activePolls h hlk
      simpa [mdpStopIVPolling, hlk] using this

/-- Every poller event preserves the poller invariant. -/
lemma invMDP_step {s : MDPState} (h : InvMDP s) (e : MDPEvent) :
    InvMDP (mdpStep s e) := by
  cases e with
  | startPolling sym exp =>
      have h1 := invMDP_stopPolling h sym exp
      have h2 := stopPolling_lookup_none s sym exp
      simpa [mdpStep, mdpStartPolling] using
        invMDP_install (mdpStopPolling s sym exp) (mkKey sym exp)
          (chainChan sym exp)
          (setAdd (mdpStopPolling s sym exp).activePolls (mkKey sym exp))
          ((mdpStopPolling s sym exp).inflight ++ [chainChan sym exp])
          (mdpStopPolling s sym exp).published h1 h2
  | stopPolling sym exp => exact invMDP_stopPolling h sym exp
  | startIVPolling sym =>
      have h1 := invMDP_stopIVPolling h sym
      have h2 := stopIVPolling_lookup_none s sym
      simpa [mdpStep, mdpStartIVPolling] using
        invMDP_install (mdpStopIVPolling s sym) (mkIVKey sym) (ivChan sym)
          (mdpStopIVPolling s sym).activePolls
          ((mdpStopIVPolling s sym).inflight ++ [ivChan sym])
          (mdpStopIVPolling s sym).published h1 h2
  | stopIVPolling sym => exact invMDP_stopIVPolling h sym
  | timerFire tid =>
      simp only [mdpStep]
      cases hf : s.timers.find? (fun t => t.id = tid) with
      | none => exact h
      | some t => exact h
  | fetchComplete i =>
      simp only [mdpStep]
      cases hf : s.inflight.get? i with
      | none => exact h
      | some ch => exact h
  | stopAll =>
      refine ⟨?_, ?_, ?_, ?_, ?_, ?_⟩ <;> simp [mdpStep, mdpStopAll, alookup]

/-- The poller starts with the invariant. -/
lemma invMDP_init : InvMDP mdpInit := by
  refine ⟨?_, ?_, ?_, ?_, ?_, ?_⟩ <;> simp [mdpInit, alookup]

/-- Every reachable poller state satisfies the invariant. -/
lemma invMDP_run (ops : List MDPEvent) : InvMDP (mdpRun ops) := by
  suffices hgen : ∀ (l : List MDPEvent) (s : MDPState), InvMDP s →
      InvMDP (l.foldl mdpStep s) by
    exact hgen ops mdpInit invMDP_init
  intro l
  induction l with
  | nil => intro s h; exact h
  | cons e rest ih =>
      intro s h
      exact ih _ (invMDP_step h e)

/-- Consistency of the `activePolls` status map with the timer map: every
listed key is unique and still has a registered timer. -/
def ActiveInv (s : MDPState) : Prop :=
  s.activePolls.Nodup ∧
  ∀ k ∈ s.activePolls, (alookup s.pollers k).isSome = true

/-- `stopIVPolling` never touches the status map. -/
lemma stopIVPolling_activePolls (s : MDPState) (sym : String) :
    (mdpStopIVPolling s sym).activePolls = s.activePolls := by
  cases hlk : alookup s.pollers (mkIVKey sym) with
  | none => simp [mdpStopIVPolling, hlk]
  | some tid => simp [mdpStopIVPolling, hlk]

/-- `stopPolling` preserves the status-map consistency. -/
lemma activeInv_stopPolling {s : MDPState} (h : ActiveInv s)
    (sym exp : String) : ActiveInv (mdpStopPolling s sym exp) := by
  obtain ⟨h1, h2⟩ := h
  cases hlk : alookup s.pollers (mkKey sym exp) with
  | none => simpa [mdpStopPolling, hlk] using And.intro h1 h2
  | some tid =>
      simp only [mdpStopPolling, hlk]
      refine ⟨h1.erase _, ?_⟩
      intro k hk
      obtain ⟨hne, hm⟩ := h1.mem_erase_iff.mp hk
      rw [alookup_aerase, if_neg hne]
      exact h2 k hm

/-- `startPolling` preserves the status-map consistency. -/
lemma activeInv_startPolling {s : MDPState} (h : ActiveInv s)
    (sym exp : String) : ActiveInv (mdpStartPolling s sym exp) := by
  obtain ⟨ha, hb⟩ := activeInv_stopPolling h sym exp
  have hk := stopPolling_lookup_none s sym exp
  have hset := aset_of_not_mem (alookup_eq_none.mp hk)
    (mdpStopPolling s sym exp).nextId
  simp only [mdpStartPolling]
  refine ⟨nodup_setAdd ha _, ?_⟩
  intro k hkm
  rw [hset]
  by_cases hkk : k = mkKey sym exp
  · subst hkk
    rw [alookup_append_of_none hk, alookup, if_pos rfl]
    rfl
  · rcases mem_setAdd.mp hkm with hm | hm
    · rw [alookup_append_single_ne hkk]
      exact hb k hm
    · exact absurd hm hkk

/-- `stopIVPolling` preserves the status-map consistency when its key is
not simultaneously a chain key. -/
lemma activeInv_stopIVPolling {s : MDPState} (h : ActiveInv s) (sym : String)
    (hws : mkIVKey sym ∉ s.activePolls) :
    ActiveInv (mdpStopIVPolling s sym) := by
  obtain ⟨h1, h2⟩ := h
  cases hlk : alookup s.pollers (mkIVKey sym) with
  | none => simpa [mdpStopIVPolling, hlk] using And.intro h1 h2
  | some tid =>
      simp only [mdpStopIVPolling, hlk]
      refine ⟨h1, ?_⟩
      intro k hk
      have hkk : k ≠ mkIVKey sym := fun hq => hws (hq ▸ hk)
      rw [alookup_aerase, if_neg hkk]
      exact h2 k hk

/-- `startIVPolling` preserves the status-map consistency when its key is
not simultaneously a chain key. -/
lemma activeInv_startIVPolling {s : MDPState} (h : ActiveInv s)
    (sym : String) (hws : mkIVKey sym ∉ s.activePolls) :
    ActiveInv (mdpStartIVPolling s sym) := by
  obtain ⟨ha, hb⟩ := activeInv_stopIVPolling h sym hws
  have hks := stopIVPolling_lookup_none s sym
  have hset := aset_of_not_mem (alookup_eq_none.mp hks)
    (mdpStopIVPolling s sym).nextId
  simp only [mdpStartIVPolling]
  refine ⟨ha, ?_⟩
  intro k hkm
  have hkk : k ≠ mkIVKey sym := by
    intro hq
    apply hws
    rw [← stopIVPolling_activePolls s sym, ← hq]
    exact hkm
  rw [hset, alookup_append_single_ne hkk]
  exact hb k hkm

/-- Every reachable poller state of a well-formed run keeps the status map
consistent. -/
lemma activeInv_run (ops : List MDPEvent) (h : mdpWF mdpInit ops = true) :
    ActiveInv (mdpRun ops) := by
  suffices hgen : ∀ (l : List MDPEvent) (s : MDPState), ActiveInv s →
      mdpWF s l = true → ActiveInv (l.foldl mdpStep s) by
    exact hgen ops mdpInit ⟨by simp [mdpInit], by simp [mdpInit]⟩ h
  intro l
  induction l with
  | nil => intro s hs _; exact hs
  | cons e rest ih =>
      intro s hs hwf
      rw [List.foldl_cons]
      cases e with
      | startPolling sym exp =>
          simp only [mdpWF, Bool.true_and] at hwf
          exact ih _ (activeInv_startPolling hs sym exp) hwf
      | stopPolling sym exp =>
          simp only [mdpWF, Bool.true_and] at hwf
          exact ih _ (activeInv_stopPolling hs sym exp) hwf
      | startIVPolling sym =>
          simp only [mdpWF, Bool.and_eq_true] at hwf
          have hws : mkIVKey sym ∉ s.activePolls := by
            have h1 := hwf.1
            simp only [Bool.not_eq_true', decide_eq_false_iff_not] at h1
            exact h1
          exact ih _ (activeInv_startIVPolling hs sym hws) hwf.2
      | stopIVPolling sym =>
          simp only [mdpWF, Bool.and_eq_true] at hwf
          have hws : mkIVKey sym ∉ s.activePolls := by
            have h1 := hwf.1
            simp only [Bool.not_eq_true', decide_eq_false_iff_not] at h1
            exact h1
          exact ih _ (activeInv_stopIVPolling hs sym hws) hwf.2
      | timerFire tid =>
          simp only [mdpWF, Bool.true_and] at hwf
          refine ih _ ?_ hwf
          simp only [mdpStep]
          cases hf : s.timers.find? (fun t => t.id = tid) with
          | none => exact hs
          | some t => exact hs
      | fetchComplete i =>
          simp only [mdpWF, Bool.true_and] at hwf
          refine ih _ ?_ hwf
          simp only [mdpStep]
          cases hf : s.inflight.get? i with
          | none => exact hs
          | some ch => exact hs
      | stopAll =>
          simp only [mdpWF, Bool.true_and] at hwf
          refine ih _ ⟨by simp [mdpStep, mdpStopAll], ?_⟩ hwf
          intro k hk
          simp [mdpStep, mdpStopAll] at hk

/-- A duplicate-free list whose elements are pairwise equal has at most one
element. -/
lemma length_le_one_of_forall_eq {α : Type} (l : List α) (hn : l.Nodup)
    (h : ∀ a ∈ l, ∀ b ∈ l, a = b) : l.length ≤ 1 := by
  cases l with
  | nil => simp
  | cons a rest =>
      cases rest with
      | nil => simp
      | cons b rest2 =>
          exfalso
          have hab : a = b := h a (by simp) b (by simp)
          rw [List.nodup_cons] at hn
          exact hn.1 (by simp [hab])

/-- C6: after any event sequence at most one installed timer exists per
poller key; `startPolling` on a Running key cancels the old timer and
installs a fresh one under the same key (restart, not an error); and
`stopPolling` on a key that is not Running leaves the state unchanged. -/
theorem c6_scheduler_timer_invariant (ops : List MDPEvent) :
    (∀ k, ((mdpRun ops).timers.filter (fun t => t.key = k)).length ≤ 1) ∧
    (∀ sym exp tid,
      alookup (mdpRun ops).pollers (mkKey sym exp) = some tid →
        (∀ t ∈ (mdpStep (mdpRun ops)
            (MDPEvent.startPolling sym exp)).timers, t.id ≠ tid) ∧
        alookup (mdpStep (mdpRun ops)
            (MDPEvent.startPolling sym exp)).pollers (mkKey sym exp) =
          some (mdpRun ops).nextId ∧
        TimerRec.mk (mdpRun ops).nextId (mkKey sym exp)
            (chainChan sym exp) ∈
          (mdpStep (mdpRun ops) (MDPEvent.startPolling sym exp)).timers) ∧
    (∀ sym exp, alookup (mdpRun ops).pollers (mkKey sym exp) = none →
      mdpStep (mdpRun ops) (MDPEvent.stopPolling sym exp) = mdpRun ops) := by
  obtain ⟨h1, h2, h3, h4, h5, h6⟩ := invMDP_run ops
  refine ⟨?_, ?_, ?_⟩
  · intro k
    apply length_le_one_of_forall_eq
    · exact List.Nodup.sublist (List.filter_sublist _) (h4.of_map)
    · intro a ha b hb
      obtain ⟨ham, hak⟩ := List.mem_filter.mp ha
      obtain ⟨hbm, hbk⟩ := List.mem_filter.mp hb
      have hak2 : a.key = k := by simpa using hak
      have hbk2 : b.key = k := by simpa using hbk
      have hha := h2 a ham
      have hhb := h2 b hbm
      rw [hak2] at hha
      rw [hbk2] at hhb
      rw [hha] at hhb
      have hid : a.id = b.id := (Option.some.injEq _ _).mp hhb
      exact List.inj_on_of_nodup_map h4 ham hbm hid
  · intro sym exp tid hlk
    have htid : tid < (mdpRun ops).nextId := h6 _ (alookup_mem hlk)
    have hstep : mdpStep (mdpRun ops) (MDPEvent.startPolling sym exp) =
        mdpStartPolling (mdpRun ops) sym exp := rfl
    have hstop : mdpStopPolling (mdpRun ops) sym exp =
        { mdpRun ops with
          timers := (mdpRun ops).timers.filter (fun t => t.id ≠ tid)
          pollers := aerase (mdpRun ops).pollers (mkKey sym exp)
          activePolls := (mdpRun ops).activePolls.erase (mkKey sym exp) } := by
      simp [mdpStopPolling, hlk]
    refine ⟨?_, ?_, ?_⟩
    · intro t ht
      rw [hstep] at ht
      simp only [mdpStartPolling, hstop] at ht
      rcases List.mem_cons.mp ht with h1t | h1t
      · rw [h1t]
        exact Nat.ne_of_gt htid
      · have := (List.mem_filter.mp h1t).2
        simpa using this
    · rw [hstep]
      simp only [mdpStartPolling, hstop]
      have hnone : alookup (aerase (mdpRun ops).pollers (mkKey sym exp))
          (mkKey sym exp) = none := by
        rw [alookup_aerase, if_pos rfl]
      rw [aset_of_not_mem (alookup_eq_none.mp hnone),
        alookup_append_of_none hnone, alookup, if_pos rfl]
    · rw [hstep]
      simp only [mdpStartPolling, hstop]
      exact List.mem_cons_self _ _
  · intro sym exp h
    simp [mdpStep, mdpStopPolling, h]

/-- C6 witness: restarting the only running key cancels timer 0 and
installs timer 1. -/
theorem c6_witness :
    alookup (mdpRun [MDPEvent.startPolling "NIFTY" "W"]).pollers
        (mkKey "NIFTY" "W") = some 0 ∧
    ((∀ t ∈ (mdpStep (mdpRun [MDPEvent.startPolling "NIFTY" "W"])
        (MDPEvent.startPolling "NIFTY" "W")).timers, t.id ≠ 0) ∧
     alookup (mdpStep (mdpRun [MDPEvent.startPolling "NIFTY" "W"])
        (MDPEvent.startPolling "NIFTY" "W")).pollers (mkKey "NIFTY" "W") =
       some (mdpRun [MDPEvent.startPolling "NIFTY" "W"]).nextId ∧
     TimerRec.mk (mdpRun [MDPEvent.startPolling "NIFTY" "W"]).nextId
         (mkKey "NIFTY" "W") (chainChan "NIFTY" "W") ∈
       (mdpStep (mdpRun [MDPEvent.startPolling "NIFTY" "W"])
         (MDPEvent.startPolling "NIFTY" "W")).timers) := by
  refine ⟨by decide, ?_⟩
  exact (c6_scheduler_timer_invariant
    [MDPEvent.startPolling "NIFTY" "W"]).2.1 "NIFTY" "W" 0 (by decide)

/-- C2 counterexample: start a poller (its initial fetch goes in flight),
stop it — at that point the key is Idle and nothing has been published —
and then let the in-flight fetch complete: the poller broadcasts to the
stopped key's channel, so a publish does occur after `stop` returned. -/
theorem c2_counterexample :
    alookup (mdpRun [MDPEvent.startPolling "NIFTY" "E1",
        MDPEvent.stopPolling "NIFTY" "E1"]).pollers (mkKey "NIFTY" "E1") =
      none ∧
    (mdpRun [MDPEvent.startPolling "NIFTY" "E1",
        MDPEvent.stopPolling "NIFTY" "E1"]).published = [] ∧
    (mdpRun [MDPEvent.startPolling "NIFTY" "E1",
        MDPEvent.stopPolling "NIFTY" "E1",
        MDPEvent.fetchComplete 0]).published = [chainChan "NIFTY" "E1"] := by
  refine ⟨by decide, by decide, by decide⟩

/-- C2 (amended): `stopPolling` makes the key Idle at once — its map entry
and timer are gone, so no new fetch for the key can start until a new
`startPolling` — but it neither discards in-flight fetches nor publishes
anything itself, and a fetch that is in flight when stop returns still
broadcasts to its channel when it completes. -/
theorem c2_stop_semantics (ops : List MDPEvent) (sym exp : String) :
    alookup (mdpStep (mdpRun ops)
        (MDPEvent.stopPolling sym exp)).pollers (mkKey sym exp) = none ∧
    (∀ t ∈ (mdpStep (mdpRun ops) (MDPEvent.stopPolling sym exp)).timers,
      t.key ≠ mkKey sym exp) ∧
    (mdpStep (mdpRun ops) (MDPEvent.stopPolling sym exp)).inflight =
      (mdpRun ops).inflight ∧
    (mdpStep (mdpRun ops) (MDPEvent.stopPolling sym exp)).published =
      (mdpRun ops).published ∧
    (∀ (s : MDPState) (tid : Nat), (∀ t ∈ s.timers, t.id ≠ tid) →
      mdpStep s (MDPEvent.timerFire tid) = s) ∧
    (∀ (s : MDPState) (i : Nat) (ch : String), s.inflight.get? i = some ch →
      (mdpStep s (MDPEvent.fetchComplete i)).published =
        s.published ++ [ch]) := by
  obtain ⟨h1, h2, h3, h4, h5, h6⟩ := invMDP_run ops
  refine ⟨stopPolling_lookup_none _ _ _, ?_, ?_, ?_, ?_, ?_⟩
  · intro t ht hkey
    cases hlk : alookup (mdpRun ops).pollers (mkKey sym exp) with
    | none =>
        have hs : mdpStep (mdpRun ops) (MDPEvent.stopPolling sym exp) =
            mdpRun ops := by simp [mdpStep, mdpStopPolling, hlk]
        rw [hs] at ht
        have := h2 t ht
        rw [hkey, hlk] at this
        cases this
    | some tid =>
        have hs : (mdpStep (mdpRun ops)
            (MDPEvent.stopPolling sym exp)).timers =
            (mdpRun ops).timers.filter (fun t => t.id ≠ tid) := by
          simp [mdpStep, mdpStopPolling, hlk]
        rw [hs] at ht
        obtain ⟨htm, htid⟩ := List.mem_filter.mp ht
        have := h2 t htm
        rw [hkey, hlk] at this
        have : t.id = tid := (Option.some.injEq _ _).mp this.symm
        simp [this] at htid
  · cases hlk : alookup (mdpRun ops).pollers (mkKey sym exp) with
    | none => simp [mdpStep, mdpStopPolling, hlk]
    | some tid => simp [mdpStep, mdpStopPolling, hlk]
  · cases hlk : alookup (mdpRun ops).pollers (mkKey sym exp) with
    | none => simp [mdpStep, mdpStopPolling, hlk]
    | some tid => simp [mdpStep, mdpStopPolling, hlk]
  · intro s tid h
    have hf : s.timers.find? (fun t => t.id = tid) = none := by
      rw [List.find?_eq_none]
      intro t ht
      simpa using h t ht
    simp [mdpStep, hf]
  · intro s i ch h
    have h2 : s.inflight[i]? = some ch := by simpa using h
    simp [mdpStep, h2]

/-- C2 witness: completing the initial in-flight fetch of a freshly started
poller appends exactly its channel to the publish log. -/
theorem c2_witness :
    (mdpRun [MDPEvent.startPolling "A" "B"]).inflight.get? 0 =
      some (chainChan "A" "B") ∧
    (mdpStep (mdpRun [MDPEvent.startPolling "A" "B"])
        (MDPEvent.fetchComplete 0)).published =
      (mdpRun [MDPEvent.startPolling "A" "B"]).published ++
        [chainChan "A" "B"] := by
  refine ⟨by decide, ?_⟩
  exact (c2_stop_semantics [MDPEvent.startPolling "A" "B"] "A" "B").2.2.2.2.2
    (mdpRun [MDPEvent.startPolling "A" "B"]) 0 (chainChan "A" "B") (by decide)

/-- C9 counterexample: after `startIVPolling("NIFTY")` the key `iv:NIFTY`
has an installed, active timer, yet `getActivePolls()` returns the empty
list — the IV-only variant never registers in `activePolls`, so `status()`
does not list every Running key. -/
theorem c9_counterexample :
    TimerRec.mk 0 (mkIVKey "NIFTY") (ivChan "NIFTY") ∈
      (mdpRun [MDPEvent.startIVPolling "NIFTY"]).timers ∧
    mdpGetActivePolls (mdpRun [MDPEvent.startIVPolling "NIFTY"]) = [] := by
  refine ⟨by decide, by decide⟩

/-- C9 (amended): `status()` lists only Running keys — in any run whose
chain keys do not collide with the `iv:` namespace, every key returned by
`getActivePolls` still has an installed timer, so no stopped key appears;
IV-only keys are Running but never listed (see the counterexample). -/
theorem c9_status_running_only (ops : List MDPEvent)
    (h : mdpWF mdpInit ops = true) :
    ∀ k ∈ mdpGetActivePolls (mdpRun ops),
      ∃ t ∈ (mdpRun ops).timers, t.key = k := by
  intro k hk
  obtain ⟨_, _, h3, _, _, _⟩ := invMDP_run ops
  have hsome := (activeInv_run ops h).2 k hk
  obtain ⟨tid, htid⟩ := Option.isSome_iff_exists.mp hsome
  obtain ⟨t, ht, _, htkey⟩ := h3 k tid htid
  exact ⟨t, ht, htkey⟩

/-- C9 witness: a run with one chain poller, whose key is listed and has a
timer. -/
theorem c9_witness :
    mdpWF mdpInit [MDPEvent.startPolling "NIFTY" "2025-11-28"] = true ∧
    ∀ k ∈ mdpGetActivePolls
        (mdpRun [MDPEvent.startPolling "NIFTY" "2025-11-28"]),
      ∃ t ∈ (mdpRun [MDPEvent.startPolling "NIFTY" "2025-11-28"]).timers,
        t.key = k :=
  ⟨by decide, c9_status_running_only _ (by decide)⟩

end FnoDashboard
